import Mathlib

/-!
Verification of the trace summarizer and report formatters of `sentry-mcp-rs`.

The embedding models the Rust sources:
  * `src/tools/get_trace_details.rs` — duration formatting, operation
    aggregation, interesting-span selection, time-range computation and the
    trace report composer;
  * `src/tools/get_issue_details.rs` — local-variable value rendering of
    stack frames.

Modelling conventions:
  * Rust `f64` duration/timestamp values are modelled as `ℚ`.  The spec
    (§4.2) declares behaviour on NaN undefined by design; the NaN-sensitive
    safety claim is treated separately with an `Option ℚ` value model where
    `none` stands for NaN.  The constants `0.9` and `10.0` of the source are
    dyadic/decimal literals modelled exactly as the rationals `9/10`, `10`.
  * Rust `Vec<T>` is `List T`, `String` is `String` (Lean `String.length`
    counts Unicode scalar values exactly like Rust's `chars().count()`).
  * `HashMap<String, _>` values that the source only iterates, sorts or
    updates through the entry API are modelled as association lists in
    insertion order; the source's iteration order over a `HashMap` is
    unspecified, and every claim proved below is insensitive to it (the
    rendered breakdowns are sorted before display).
  * `sort_by` of Rust is a stable sort; a stable sort's output is uniquely
    determined by the comparator, so it is modelled by a stable insertion
    sort (`sortDesc` below) with the source's descending-duration comparator.
-/

/-- Modelled from the spec: the recursive span/transaction tree node of §3
("Span/Transaction Tree Model").  The struct declaration `TraceSpan` of the
current `api_client` is not part of the sources (only the older
`TraceTransaction` revision is); its fields are taken from the spec's data
model and from the fields `get_trace_details.rs` reads: optional operation
name, optional description with transaction-name fallback, duration and
start/end timestamps (ms resp. seconds, `f64`), a transaction marker, the
attached error list (elements opaque), the project label and the children. -/
inductive TraceSpan : Type where
  | mk
      (op : Option String)
      (description : Option String)
      (transaction : Option String)
      (duration : ℚ)
      (start_timestamp : ℚ)
      (end_timestamp : ℚ)
      ( is_transaction : Bool)
      (errors : List Unit)
      (project_slug : String)
      (children : List TraceSpan)

def TraceSpan.op : TraceSpan → Option String
  | .mk v _ _ _ _ _ _ _ _ _ => v

def TraceSpan.description : TraceSpan → Option String
  | .mk _ v _ _ _ _ _ _ _ _ => v

def TraceSpan.transaction : TraceSpan → Option String
  | .mk _ _ v _ _ _ _ _ _ _ => v

def TraceSpan.duration : TraceSpan → ℚ
  | .mk _ _ _ v _ _ _ _ _ _ => v

def TraceSpan.start_timestamp : TraceSpan → ℚ
  | .mk _ _ _ _ v _ _ _ _ _ => v

def TraceSpan.end_timestamp : TraceSpan → ℚ
  | .mk _ _ _ _ _ v _ _ _ _ => v

def TraceSpan.is_transaction : TraceSpan → Bool
  | .mk _ _ _ _ _ _ v _ _ _ => v

def TraceSpan.errors : TraceSpan → List Unit
  | .mk _ _ _ _ _ _ _ v _ _ => v

def TraceSpan.project_slug : TraceSpan → String
  | .mk _ _ _ _ _ _ _ _ v _ => v

def TraceSpan.children : TraceSpan → List TraceSpan
  | .mk _ _ _ _ _ _ _ _ _ v => v

/-- Modelled from the spec: the optional backend-supplied trace metadata of
§3 ("Trace metadata"): total span count, error count, performance-issue
count and a pre-aggregated operation→duration-total map.  The struct
declaration `TraceMeta` is not part of the sources; the fields are those the
report composer reads (`span_count : f64`, `errors`, `performance_issues`,
`span_count_map : HashMap<String, f64>`, plus `logs` which is unused). -/
structure TraceMeta : Type where
  logs : Int
  errors : Int
  performance_issues : Int
  span_count : ℚ
  span_count_map : List (String × ℚ)
deriving DecidableEq

/-- `q as i64` of the source: truncation toward zero (used on non-negative
counts only). -/
def ratTrunc (q : ℚ) : Int := q.num / (q.den : Int)

/-- Two-decimal fixed-point rendering, the model of Rust `format!("{:.2}", q)`
on a non-negative `f64`: round `100·q` to the nearest integer and print
`⟨integer part⟩.⟨two digits⟩`.  (Exact ties cannot arise from `f64` inputs:
`100·q = k + 1/2` would force the non-dyadic denominator 200, so any
round-to-nearest convention is faithful on the source's domain.)
Zero-padded two-digit rendering of the fraction: `pad2`. -/
def pad2 (f : Nat) : String :=
  if f < 10 then "0" ++ toString f else toString f

def fmt2 (q : ℚ) : String :=
  toString (round (q * 100) / 100) ++ "." ++ pad2 (round (q * 100) % 100).toNat

/-- `format_duration` (get_trace_details.rs:22-28). -/
def formatDuration (ms : ℚ) : String :=
  if ms ≥ 1000 then fmt2 (ms / 1000) ++ "s" else fmt2 ms ++ "ms"

/-- The copy pushed by `collect_interesting` (get_trace_details.rs:86-88):
`span.clone()` with `children` cleared. -/
def stripChildren : TraceSpan → TraceSpan
  | .mk op de tx du st en it er pr _ => .mk op de tx du st en it er pr []

/-- `dominated_by_one_child` (get_trace_details.rs:76-77):
`span.children.len() == 1 && span.children[0].duration >= span.duration * 0.9`. -/
def dominatedByOneChild (s : TraceSpan) : Bool :=
  match s.children with
  | [c] => decide (c.duration ≥ s.duration * (9 / 10 : ℚ))
  | _ => false

/-- `is_interesting` (get_trace_details.rs:83): transactions, spans with
errors and spans with duration ≥ `MIN_INTERESTING_DURATION_MS = 10.0`. -/
def isInteresting (s : TraceSpan) : Bool :=
  s.is_transaction || !s.errors.isEmpty || decide (s.duration ≥ (10 : ℚ))

mutual

/-- `collect_interesting` (get_trace_details.rs:75-94): push the
children-stripped snapshot unless the span is suppressed (non-transaction
dominated by its single child) or uninteresting, then recurse over the
children in order.  The `out` vector is modelled by returning the list of
pushed snapshots in push order. -/
def collectInteresting (s : TraceSpan) : List TraceSpan :=
  match s with
  | .mk op de tx du st en it er pr children =>
    let sp : TraceSpan := .mk op de tx du st en it er pr children
    (if (!(dominatedByOneChild sp && !it)) && isInteresting sp
      then [stripChildren sp] else [])
      ++ collectInterestingList children

/-- The `for span in spans { collect_interesting(span, &mut collected) }`
loops of get_trace_details.rs:67-69 and 91-93. -/
def collectInterestingList : List TraceSpan → List TraceSpan
  | [] => []
  | s :: rest => collectInteresting s ++ collectInterestingList rest

end

/-- Stable descending insertion (by the key `key`): `x` is placed before the
first element whose key is not strictly greater, so earlier-collected
elements precede later ties.  This is the unique stable order of Rust's
stable `sort_by` with the comparator
`|a, b| b.duration.partial_cmp(&a.duration).unwrap()` (get_trace_details.rs:70). -/
def insDesc (key : α → ℚ) (x : α) : List α → List α
  | [] => [x]
  | y :: ys => if key y > key x then y :: insDesc key x ys else x :: y :: ys

/-- Stable descending sort by `key`; models `collected.sort_by(...)`. -/
def sortDesc (key : α → ℚ) (l : List α) : List α :=
  l.foldr (insDesc key) []

/-- `select_interesting_spans` (get_trace_details.rs:65-73): collect, sort by
duration descending (stable), truncate to `max_spans`. -/
def selectInterestingSpans (spans : List TraceSpan) (maxSpans : Nat) : List TraceSpan :=
  ((sortDesc TraceSpan.duration (collectInterestingList spans)).take maxSpans)

/-- The entry bucket map `HashMap<String, (i32, f64)>` of `collect_operations`,
as an association list in insertion order. -/
abbrev OpsMap := List (String × Int × ℚ)

/-- `ops.entry(op.clone()).or_insert((0, 0.0)); entry.0 += 1; entry.1 += duration`
(get_trace_details.rs:32-34). -/
def bumpOp (key : String) (d : ℚ) : OpsMap → OpsMap
  | [] => [(key, 1, d)]
  | (k, c, t) :: rest =>
      if k = key then (k, c + 1, t + d) :: rest else (k, c, t) :: bumpOp key d rest

mutual

/-- `collect_operations` (get_trace_details.rs:30-39): credit the node's own
duration to its operation bucket when the operation is present, then visit
the children. -/
def collectOperations (s : TraceSpan) (ops : OpsMap) : OpsMap :=
  match s with
  | .mk op _ _ du _ _ _ _ _ children =>
    let ops' := match op with
      | some o => bumpOp o du ops
      | none => ops
    collectOperationsList children ops'

/-- The `for child in &span.children` loop of get_trace_details.rs:36-38, and
the `for span in spans` loop of the report composer (lines 144-146). -/
def collectOperationsList : List TraceSpan → OpsMap → OpsMap
  | [], ops => ops
  | c :: rest, ops => collectOperationsList rest (collectOperations c ops)

end

mutual

/-- `count_transactions` (get_trace_details.rs:172-181). -/
def countTransactions : List TraceSpan → Nat
  | [] => 0
  | s :: rest => countTransactionsOf s + countTransactions rest

def countTransactionsOf (s : TraceSpan) : Nat :=
  match s with
  | .mk _ _ _ _ _ _ it _ _ children =>
    (if it then 1 else 0) + countTransactions children

end

/-- Merge for running minima: `none` models the untouched `f64::MAX`
sentinel of `compute_time_range` (get_trace_details.rs:183-202); a candidate
replaces the current minimum exactly when it is smaller, as in
`if v < min_start { min_start = v }`. -/
def rangeMin : Option ℚ → Option ℚ → Option ℚ
  | none, b => b
  | some a, none => some a
  | some a, some b => some (min a b)

/-- Merge for running maxima: `none` models the untouched `f64::MIN` sentinel. -/
def rangeMax : Option ℚ → Option ℚ → Option ℚ
  | none, b => b
  | some a, none => some a
  | some a, some b => some (max a b)

mutual

/-- One node's contribution to `compute_time_range`: its own timestamps when
positive (`span.start_timestamp > 0.0`, `span.end_timestamp > 0.0`,
get_trace_details.rs:187-192) merged with the children's recursive range
(lines 193-199).  `min`/`max` merging is associative and commutative, so the
fold order of the source loop is immaterial. -/
def spanTimeRange (s : TraceSpan) : Option ℚ × Option ℚ :=
  match s with
  | .mk _ _ _ _ st en _ _ _ children =>
    let own : Option ℚ × Option ℚ :=
      (if st > 0 then some st else none, if en > 0 then some en else none)
    let child := computeTimeRange children
    (rangeMin own.1 child.1, rangeMax own.2 child.2)

/-- `compute_time_range` (get_trace_details.rs:183-202) over a span list;
`(none, none)` models the untouched `(f64::MAX, f64::MIN)` sentinels. -/
def computeTimeRange : List TraceSpan → Option ℚ × Option ℚ
  | [] => (none, none)
  | s :: rest =>
    let r₁ := spanTimeRange s
    let r₂ := computeTimeRange rest
    (rangeMin r₁.1 r₂.1, rangeMax r₁.2 r₂.2)

end

mutual

/-- `format_span_tree` (get_trace_details.rs:41-60), returning the appended
text instead of mutating `output`. -/
def formatSpanTree (s : TraceSpan) (depth : Nat) : String :=
  match s with
  | .mk op de tx du _ _ it er pr children =>
    let indent := String.join (List.replicate depth "  ")
    let duration := formatDuration du
    let opStr := op.getD "unknown"
    let desc := (de.or tx).getD "(no description)"
    let statusIcon := if !er.isEmpty then "✗" else "✓"
    let txMarker := if it then " [tx]" else ""
    indent ++ statusIcon ++ " [" ++ opStr ++ "] " ++ desc ++ " (" ++ duration
      ++ ") " ++ pr ++ txMarker ++ "\n" ++ formatSpanTreeList children (depth + 1)

/-- The `for child in &span.children` loop of get_trace_details.rs:57-59. -/
def formatSpanTreeList : List TraceSpan → Nat → String
  | [], _ => ""
  | c :: rest, depth => formatSpanTree c depth ++ formatSpanTreeList rest depth

end

/-- The duration block of `format_trace_output` (get_trace_details.rs:117-131):
with at least one root, display the wall-clock total
`(end − start) × 1000` when positive, otherwise fall back to the first
root's own duration.  In the source a positive total requires both sentinels
to have been replaced (with untouched sentinels `end − start` is
`f64::MIN − f64::MAX` or smaller on one side, never positive), which the
`Option` model renders as the both-`some` branch. -/
def durationSection (spans : List TraceSpan) : String :=
  match spans with
  | [] => ""
  | root :: _ =>
    match computeTimeRange spans with
    | (some s, some e) =>
        if (e - s) * 1000 > 0 then
          "**Total Duration:** " ++ formatDuration ((e - s) * 1000) ++ "\n"
        else
          "**Root Duration:** " ++ formatDuration root.duration ++ "\n"
    | _ =>
        "**Root Duration:** " ++ formatDuration root.duration ++ "\n"

/-- One line `- **{op}**: {count as i64}` of the server-map breakdown
(get_trace_details.rs:139-141). -/
def renderMetaPairs (l : List (String × ℚ)) : String :=
  match l with
  | [] => ""
  | (op, count) :: rest =>
      "- **" ++ op ++ "**: " ++ toString (ratTrunc count) ++ "\n" ++ renderMetaPairs rest

/-- One line `- **{op}**: {count} occurrences, {duration} total` of the local
breakdown (get_trace_details.rs:151-158). -/
def renderLocalOps (l : OpsMap) : String :=
  match l with
  | [] => ""
  | (op, count, total) :: rest =>
      "- **" ++ op ++ "**: " ++ toString count ++ " occurrences, "
        ++ formatDuration total ++ " total\n" ++ renderLocalOps rest

/-- The locally computed operation breakdown (the `else` branch of
get_trace_details.rs:142-160): aggregate over all roots, and emit the sorted
section only when non-empty. -/
def localBreakdown (spans : List TraceSpan) : String :=
  let ops := collectOperationsList spans []
  if ops.isEmpty then ""
  else
    "\n## Operation Breakdown\n\n"
      ++ renderLocalOps (sortDesc (fun e => e.2.2) ops)

/-- The operation-breakdown block of `format_trace_output`
(get_trace_details.rs:133-160): prefer the server-supplied map when present
and non-empty (sorted by value descending), otherwise the local aggregate
(sorted by total duration descending). -/
def breakdownSection (spans : List TraceSpan) (meta : Option TraceMeta) : String :=
  match meta with
  | some m =>
      if m.span_count_map.isEmpty then localBreakdown spans
      else
        "\n## Operation Breakdown\n\n"
          ++ renderMetaPairs (sortDesc Prod.snd m.span_count_map)
  | none => localBreakdown spans

/-- The metadata header lines of `format_trace_output`
(get_trace_details.rs:108-115). -/
def metaSection (meta : Option TraceMeta) : String :=
  match meta with
  | some m =>
      "**Total Spans:** " ++ toString (ratTrunc m.span_count) ++ "\n"
        ++ "**Errors:** " ++ toString m.errors ++ "\n"
        ++ "**Performance Issues:** " ++ toString m.performance_issues ++ "\n"
  | none => ""

/-- The span-tree block of `format_trace_output` (get_trace_details.rs:162-167);
`MAX_INTERESTING_SPANS = 20`. -/
def spanTreeSection (spans : List TraceSpan) : String :=
  "\n## Span Tree\n\n```\n"
    ++ formatSpanTreeList (selectInterestingSpans spans 20) 0
    ++ "```\n"

/-- `format_trace_output` (get_trace_details.rs:96-170). -/
def formatTraceOutput (traceId : String) (spans : List TraceSpan)
    (meta : Option TraceMeta) : String :=
  "# Trace Details\n\n"
    ++ "**Trace ID:** " ++ traceId ++ "\n"
    ++ "**Transactions:** " ++ toString (countTransactions spans) ++ "\n"
    ++ metaSection meta
    ++ durationSection spans
    ++ breakdownSection spans meta
    ++ spanTreeSection spans

/-- `execute` (get_trace_details.rs:204-220) with the two awaited fetch
results passed in: a failed trace fetch propagates (`map_err` +`?`), while
the metadata fetch is demoted to an `Option` by `.ok()` and can never fail
the request. -/
def executeTrace (traceRes : Except String (List TraceSpan))
    (metaRes : Except String TraceMeta) (traceId : String) :
    Except String String :=
  match traceRes with
  | .error e => .error e
  | .ok spans => .ok (formatTraceOutput traceId spans metaRes.toOption)

/-! ### NaN-aware model of the selector (for the sort-panic safety claim)

For the safety claim about the `unwrap` in the selector's sort the `f64`
duration is modelled as `Option ℚ`, `none` standing for NaN, with the IEEE
comparison semantics the source relies on: any comparison against NaN is
false, `partial_cmp` yields `None` (so `unwrap` panics) exactly when one
operand is NaN, and NaN propagates through multiplication.  Only the fields
the selector reads are retained. -/

inductive NSpan : Type where
  | mk
      (duration : Option ℚ)
      ( is_transaction : Bool)
      (errors : List Unit)
      (children : List NSpan)

def NSpan.duration : NSpan → Option ℚ
  | .mk v _ _ _ => v

def NSpan.is_transaction : NSpan → Bool
  | .mk _ v _ _ => v

def NSpan.errors : NSpan → List Unit
  | .mk _ _ v _ => v

def NSpan.children : NSpan → List NSpan
  | .mk _ _ _ v => v

/-- `f64 >=` with NaN: false when either side is NaN. -/
def geF : Option ℚ → Option ℚ → Bool
  | some a, some b => decide (a ≥ b)
  | _, _ => false

/-- `f64 *` by a constant, propagating NaN. -/
def mulF (a : Option ℚ) (r : ℚ) : Option ℚ := a.map (· * r)

def stripChildrenN : NSpan → NSpan
  | .mk du it er _ => .mk du it er []

def dominatedByOneChildN (s : NSpan) : Bool :=
  match s.children with
  | [c] => geF c.duration (mulF s.duration (9 / 10))
  | _ => false

def isInterestingN (s : NSpan) : Bool :=
  s.is_transaction || !s.errors.isEmpty || geF s.duration (some 10)

mutual

def collectInterestingN (s : NSpan) : List NSpan :=
  match s with
  | .mk du it er children =>
    let sp : NSpan := .mk du it er children
    (if (!(dominatedByOneChildN sp && !it)) && isInterestingN sp
      then [stripChildrenN sp] else [])
      ++ collectInterestingListN children

def collectInterestingListN : List NSpan → List NSpan
  | [] => []
  | s :: rest => collectInterestingN s ++ collectInterestingListN rest

end

/-- One call of the sort comparator
`|a, b| b.duration.partial_cmp(&a.duration).unwrap()`: `.error ()` models the
`unwrap` panic on NaN. -/
def cmpDurations (a b : NSpan) : Except Unit Ordering :=
  match b.duration, a.duration with
  | some x, some y => .ok (compare x y)
  | _, _ => .error ()

/-- Stable descending insertion threaded through the panic monad: every
element comparison performed is a comparator call that may panic. -/
def insDescM (x : NSpan) : List NSpan → Except Unit (List NSpan)
  | [] => .ok [x]
  | y :: ys => do
      let o ← cmpDurations x y
      match o with
      | .lt => pure (x :: y :: ys)
      | _ => do
          let r ← insDescM x ys
          pure (y :: r)

/-- The selector's sort in the panic monad. -/
def sortDescM : List NSpan → Except Unit (List NSpan)
  | [] => .ok []
  | x :: xs => do
      let r ← sortDescM xs
      insDescM x r

/-- `select_interesting_spans` over the NaN-aware model: `.error ()` marks a
panic of the `unwrap` inside the sort. -/
def selectInterestingSpansN (spans : List NSpan) (maxSpans : Nat) :
    Except Unit (List NSpan) := do
  let sorted ← sortDescM (collectInterestingListN spans)
  pure (sorted.take maxSpans)

mutual

/-- No NaN duration anywhere in the subtree (the claim's precondition). -/
def nanFree (s : NSpan) : Bool :=
  match s with
  | .mk du _ _ children => du.isSome && nanFreeList children

def nanFreeList : List NSpan → Bool
  | [] => true
  | s :: rest => nanFree s && nanFreeList rest

end

/-! ### Local-variable rendering of the issue-detail report -/

/-- The untyped JSON values of stack-frame `vars`
(get_issue_details.rs:25-42).  Numbers are modelled as integers (their
rendering plays no role in the truncation claim); string escaping of the
serialized form is elided. -/
inductive JVal : Type where
  | null
  | bool (b : Bool)
  | num (n : Int)
  | str (s : String)
  | arr (xs : List JVal)
  | obj (kvs : List (String × JVal))

mutual

/-- `val.to_string()` (serde serialization) for the default match arm. -/
def jvalToStr : JVal → String
  | .null => "null"
  | .bool b => if b then "true" else "false"
  | .num n => toString n
  | .str s => "\"" ++ s ++ "\""
  | .arr xs => "[" ++ jvalListToStr xs ++ "]"
  | .obj kvs => "\x7b" ++ jvalObjToStr kvs ++ "\x7d"

def jvalListToStr : List JVal → String
  | [] => ""
  | [x] => jvalToStr x
  | x :: rest => jvalToStr x ++ "," ++ jvalListToStr rest

def jvalObjToStr : List (String × JVal) → String
  | [] => ""
  | [(k, v)] => "\"" ++ k ++ "\":" ++ jvalToStr v
  | (k, v) :: rest => "\"" ++ k ++ "\":" ++ jvalToStr v ++ "," ++ jvalObjToStr rest

end

/-- `val_str` (get_issue_details.rs:30-34): strings quoted, null rendered as
the literal placeholder `None`, anything else serialized. -/
def renderValStr : JVal → String
  | .str s => "\"" ++ s ++ "\""
  | .null => "None"
  | v => jvalToStr v

/-- `truncated` (get_issue_details.rs:35-39): cut to the first 57 characters
plus `"..."` when the rendered value has more than 60 characters
(`chars().count()`, i.e. Unicode scalar values, exactly `String.length`). -/
def renderVarValue (v : JVal) : String :=
  let valStr := renderValStr v
  if valStr.length > 60 then (valStr.take 57) ++ "..." else valStr

/-- The `for (key, val) in vars` loop (get_issue_details.rs:29-41). -/
def renderVars : List (String × JVal) → String
  | [] => ""
  | (key, v) :: rest =>
      "├─ " ++ key ++ ": " ++ renderVarValue v ++ "\n" ++ renderVars rest

/-! ### Substring test (used to evaluate the composed report) -/

def charSeqContains (l pat : List Char) : Bool :=
  match l with
  | [] => pat.isEmpty
  | _ :: t => pat.isPrefixOf l || charSeqContains t pat

/-- `s` contains `pat` as a contiguous substring. -/
def containsSub (s pat : String) : Bool :=
  charSeqContains s.toList pat.toList

/-! ### Spec-side descriptions (for refinement comparisons)

The following definitions follow the words of the spec/claims, not the
source; they exist only to be compared against the source-derived
definitions above. -/

/-- Minimum of a list of rationals (`none` on the empty list). -/
def minQ : List ℚ → Option ℚ
  | [] => none
  | v :: rest => rangeMin (some v) (minQ rest)

/-- Maximum of a list of rationals (`none` on the empty list). -/
def maxQ : List ℚ → Option ℚ
  | [] => none
  | v :: rest => rangeMax (some v) (maxQ rest)

mutual

/-- Spec wording of the wall-clock scan, as the claim states it: every
node's start timestamps collected recursively, excluding only values *equal
to* 0.0. -/
def claimStartsOf (s : TraceSpan) : List ℚ :=
  match s with
  | .mk _ _ _ _ st _ _ _ _ children =>
    (if st = 0 then [] else [st]) ++ claimStarts children

def claimStarts : List TraceSpan → List ℚ
  | [] => []
  | s :: rest => claimStartsOf s ++ claimStarts rest

end

mutual

/-- As `claimStartsOf`, for end timestamps. -/
def claimEndsOf (s : TraceSpan) : List ℚ :=
  match s with
  | .mk _ _ _ _ _ en _ _ _ children =>
    (if en = 0 then [] else [en]) ++ claimEnds children

def claimEnds : List TraceSpan → List ℚ
  | [] => []
  | s :: rest => claimEndsOf s ++ claimEnds rest

end

/-- The wall-clock clause of the claim as stated: whenever the min/max over
the (claims' notion of) valid timestamps gives a positive range, the report's
duration line shows `(max end − min start) × 1000` as the total. -/
def c3ClaimAt (spans : List TraceSpan) : Prop :=
  spans ≠ [] →
  ∀ a b, minQ (claimStarts spans) = some a → maxQ (claimEnds spans) = some b →
    (b - a) * 1000 > 0 →
    durationSection spans =
      "**Total Duration:** " ++ formatDuration ((b - a) * 1000) ++ "\n"

mutual

/-- Amended spec wording: start timestamps collected recursively, excluding
all non-positive values (the source's `> 0.0` guard). -/
def validStartsOf (s : TraceSpan) : List ℚ :=
  match s with
  | .mk _ _ _ _ st _ _ _ _ children =>
    (if st > 0 then [st] else []) ++ validStarts children

def validStarts : List TraceSpan → List ℚ
  | [] => []
  | s :: rest => validStartsOf s ++ validStarts rest

end

mutual

/-- As `validStartsOf`, for end timestamps. -/
def validEndsOf (s : TraceSpan) : List ℚ :=
  match s with
  | .mk _ _ _ _ _ en _ _ _ children =>
    (if en > 0 then [en] else []) ++ validEnds children

def validEnds : List TraceSpan → List ℚ
  | [] => []
  | s :: rest => validEndsOf s ++ validEnds rest

end

/-- The truncation clause of the issue-detail claim as stated: any rendered
local-variable value longer than 57 characters is cut to its first 57
characters plus an ellipsis. -/
def c9ClaimAt (v : JVal) : Prop :=
  57 < (renderValStr v).length →
  renderVarValue v = (renderValStr v).take 57 ++ "..."

/-! ### Counting helpers for the aggregator claim -/

/-- Total occurrence count over all buckets. -/
def sumCounts (ops : OpsMap) : Int :=
  match ops with
  | [] => 0
  | (_, c, _) :: rest => c + sumCounts rest

mutual

/-- Number of nodes in the subtree whose optional operation field is
present (the claim's "nodes that have a non-empty operation name", read as a
non-empty `Option`: the source, get_trace_details.rs:31, tests
`if let Some(op)` and never inspects the string itself). -/
def countOpNodes (s : TraceSpan) : Nat :=
  match s with
  | .mk op _ _ _ _ _ _ _ _ children =>
    (if op.isSome then 1 else 0) + countOpNodesList children

def countOpNodesList : List TraceSpan → Nat
  | [] => 0
  | s :: rest => countOpNodes s + countOpNodesList rest

end

/-! ### Induction principles for the nested span trees -/

theorem spanInd (A : TraceSpan → Prop) (B : List TraceSpan → Prop)
    (hmk : ∀ op de tx du st en it er pr ch,
      B ch → A (.mk op de tx du st en it er pr ch))
    (hnil : B [])
    (hcons : ∀ s rest, A s → B rest → B (s :: rest)) :
    (∀ s, A s) ∧ (∀ l, B l) := by
  have key : ∀ n : Nat, (∀ s : TraceSpan, sizeOf s < n → A s) ∧
      (∀ l : List TraceSpan, sizeOf l < n → B l) := by
    intro n
    induction n with
    | zero => exact ⟨fun s hs => absurd hs (Nat.not_lt_zero _),
        fun l hl => absurd hl (Nat.not_lt_zero _)⟩
    | succ n ih =>
      obtain ⟨ihA, ihB⟩ := ih
      constructor
      · intro s hs
        match s with
        | .mk op de tx du st en it er pr ch =>
          apply hmk
          apply ihB
          have : sizeOf ch < sizeOf (TraceSpan.mk op de tx du st en it er pr ch) := by
            simp only [TraceSpan.mk.sizeOf_spec]
            omega
          omega
      · intro l hl
        match l with
        | [] => exact hnil
        | s :: rest =>
          have hs : sizeOf s < n := by
            have : sizeOf (s :: rest) = 1 + sizeOf s + sizeOf rest := by
              simp only [List.cons.sizeOf_spec]
            omega
          have hr : sizeOf rest < n := by
            have : sizeOf (s :: rest) = 1 + sizeOf s + sizeOf rest := by
              simp only [List.cons.sizeOf_spec]
            omega
          exact hcons s rest (ihA s hs) (ihB rest hr)
  exact ⟨fun s => (key (sizeOf s + 1)).1 s (Nat.lt_succ_self _),
    fun l => (key (sizeOf l + 1)).2 l (Nat.lt_succ_self _)⟩

theorem nspanInd (A : NSpan → Prop) (B : List NSpan → Prop)
    (hmk : ∀ du it er ch, B ch → A (.mk du it er ch))
    (hnil : B [])
    (hcons : ∀ s rest, A s → B rest → B (s :: rest)) :
    (∀ s, A s) ∧ (∀ l, B l) := by
  have key : ∀ n : Nat, (∀ s : NSpan, sizeOf s < n → A s) ∧
      (∀ l : List NSpan, sizeOf l < n → B l) := by
    intro n
    induction n with
    | zero => exact ⟨fun s hs => absurd hs (Nat.not_lt_zero _),
        fun l hl => absurd hl (Nat.not_lt_zero _)⟩
    | succ n ih =>
      obtain ⟨ihA, ihB⟩ := ih
      constructor
      · intro s hs
        match s with
        | .mk du it er ch =>
          apply hmk
          apply ihB
          have : sizeOf ch < sizeOf (NSpan.mk du it er ch) := by
            simp only [NSpan.mk.sizeOf_spec]
            omega
          omega
      · intro l hl
        match l with
        | [] => exact hnil
        | s :: rest =>
          have hsz : sizeOf (s :: rest) = 1 + sizeOf s + sizeOf rest := by
            simp only [List.cons.sizeOf_spec]
          exact hcons s rest (ihA s (by omega)) (ihB rest (by omega))
  exact ⟨fun s => (key (sizeOf s + 1)).1 s (Nat.lt_succ_self _),
    fun l => (key (sizeOf l + 1)).2 l (Nat.lt_succ_self _)⟩

/-! ### Properties of the stable descending sort -/

theorem mem_insDesc (key : α → ℚ) (a x : α) (l : List α) :
    x ∈ insDesc key a l ↔ x = a ∨ x ∈ l := by
  induction l with
  | nil => simp [insDesc]
  | cons y ys ih =>
    by_cases h : key y > key a
    · simp only [insDesc, if_pos h, List.mem_cons, ih]
      tauto
    · simp only [insDesc, if_neg h, List.mem_cons]

theorem mem_sortDesc (key : α → ℚ) (x : α) (l : List α) :
    x ∈ sortDesc key l ↔ x ∈ l := by
  induction l with
  | nil => simp [sortDesc]
  | cons y ys ih =>
    simp only [sortDesc, List.foldr_cons] at *
    rw [mem_insDesc, ih, List.mem_cons]

theorem pairwise_insDesc (key : α → ℚ) (a : α) (l : List α)
    (h : l.Pairwise (fun x y => key y ≤ key x)) :
    (insDesc key a l).Pairwise (fun x y => key y ≤ key x) := by
  induction l with
  | nil => simp [insDesc]
  | cons y ys ih =>
    rw [List.pairwise_cons] at h
    obtain ⟨hy, hys⟩ := h
    by_cases hgt : key y > key a
    · rw [insDesc, if_pos hgt, List.pairwise_cons]
      refine ⟨?_, ih hys⟩
      intro z hz
      rcases (mem_insDesc key a z ys).1 hz with rfl | hz
      · exact le_of_lt hgt
      · exact hy z hz
    · rw [insDesc, if_neg hgt, List.pairwise_cons]
      refine ⟨?_, List.pairwise_cons.2 ⟨hy, hys⟩⟩
      intro z hz
      rcases List.mem_cons.1 hz with rfl | hz
      · exact le_of_not_lt hgt
      · exact le_trans (hy z hz) (le_of_not_lt hgt)

theorem pairwise_sortDesc (key : α → ℚ) (l : List α) :
    (sortDesc key l).Pairwise (fun x y => key y ≤ key x) := by
  induction l with
  | nil => simp [sortDesc]
  | cons y ys ih => exact pairwise_insDesc key y _ ih

theorem filter_insDesc (key : α → ℚ) (d : ℚ) (a : α) (l : List α) :
    (insDesc key a l).filter (fun s => decide (key s = d)) =
      if key a = d then a :: l.filter (fun s => decide (key s = d))
      else l.filter (fun s => decide (key s = d)) := by
  induction l with
  | nil =>
    by_cases h : key a = d <;> simp [insDesc, List.filter, h]
  | cons y ys ih =>
    by_cases hgt : key y > key a
    · rw [insDesc, if_pos hgt]
      by_cases hyd : key y = d
      · have had : ¬ key a = d := by
          intro had; rw [had, hyd] at hgt; exact lt_irrefl d hgt
        simp [List.filter_cons, hyd, ih, had]
      · simp [List.filter_cons, hyd, ih]
    · rw [insDesc, if_neg hgt]
      by_cases had : key a = d <;> simp [had, List.filter_cons]

theorem filter_sortDesc (key : α → ℚ) (d : ℚ) (l : List α) :
    (sortDesc key l).filter (fun s => decide (key s = d)) =
      l.filter (fun s => decide (key s = d)) := by
  induction l with
  | nil => rfl
  | cons y ys ih =>
    show (insDesc key y (sortDesc key ys)).filter _ = _
    rw [filter_insDesc]
    by_cases hyd : key y = d <;> simp [hyd, List.filter, ih]

/-! ### The collected snapshots all have their children cleared -/

theorem children_stripChildren (s : TraceSpan) : (stripChildren s).children = [] := by
  cases s; rfl

theorem collect_children_nil :
    ∀ l : List TraceSpan, ∀ x ∈ collectInterestingList l, x.children = [] := by
  have h := spanInd
    (fun s => ∀ x ∈ collectInteresting s, x.children = [])
    (fun l => ∀ x ∈ collectInterestingList l, x.children = [])
    ?_ ?_ ?_
  · exact h.2
  · intro op de tx du st en it er pr ch hch x hx
    rw [collectInteresting] at hx
    rcases List.mem_append.1 hx with hx | hx
    · split at hx
      · rcases List.mem_singleton.1 hx with rfl
        exact children_stripChildren _
      · exact absurd hx (List.not_mem_nil x)
    · exact hch x hx
  · intro x hx
    exact absurd hx (List.not_mem_nil x)
  · intro s rest hs hrest x hx
    rw [collectInterestingList] at hx
    rcases List.mem_append.1 hx with hx | hx
    · exact hs x hx
    · exact hrest x hx

/-- **C1.** For every span list and bound `N`, `select_interesting_spans`
returns at most `N` snapshots, sorted non-increasing by duration, each with
its `children` field cleared; and for every duration value the tied
snapshots appear as a prefix of the equal-duration snapshots of the
pre-order depth-first collection (i.e. ties keep traversal order). -/
theorem c1_select_interesting_spans (spans : List TraceSpan) (N : Nat) :
    (selectInterestingSpans spans N).length ≤ N ∧
    (selectInterestingSpans spans N).Pairwise
      (fun a b => b.duration ≤ a.duration) ∧
    (∀ s ∈ selectInterestingSpans spans N, s.children = []) ∧
    (∀ d : ℚ,
      (selectInterestingSpans spans N).filter (fun s => decide (s.duration = d))
        <+: (collectInterestingList spans).filter
              (fun s => decide (s.duration = d))) := by
  refine ⟨List.length_take_le _ _, ?_, ?_, ?_⟩
  · exact (pairwise_sortDesc TraceSpan.duration _).sublist
      (List.take_sublist _ _)
  · intro s hs
    have hs' : s ∈ sortDesc TraceSpan.duration (collectInterestingList spans) :=
      (List.take_sublist _ _).mem hs
    exact collect_children_nil spans s ((mem_sortDesc _ _ _).1 hs')
  · intro d
    have hpre : (sortDesc TraceSpan.duration (collectInterestingList spans)).take N
        <+: sortDesc TraceSpan.duration (collectInterestingList spans) :=
      ⟨_, List.take_append_drop N _⟩
    have h₁ : (selectInterestingSpans spans N).filter
        (fun s => decide (s.duration = d)) <+:
        (sortDesc TraceSpan.duration (collectInterestingList spans)).filter
        (fun s => decide (s.duration = d)) :=
      hpre.filter _
    rw [filter_sortDesc] at h₁
    exact h₁

def sampleTxW : TraceSpan := .mk (some "http") none none 5 0 0 true [] "proj" []

theorem c1_select_interesting_spans_witness :
    (selectInterestingSpans [sampleTxW] 20).length ≤ 20 ∧
    (stripChildren sampleTxW).children = [] := by
  have h := c1_select_interesting_spans [sampleTxW] 20
  refine ⟨h.1, ?_⟩
  exact h.2.2.1 (stripChildren sampleTxW)
    (show stripChildren sampleTxW ∈ [stripChildren sampleTxW] from
      List.mem_singleton.2 rfl)

/-- **C2.** A non-transaction span with exactly one child whose duration is
at least 0.9 of its own contributes no snapshot (its collection is exactly
that of its children), regardless of its own duration or errors; a
transaction span always contributes its snapshot, dominated or not. -/
theorem c2_dominated_suppression (s : TraceSpan) :
    (s.is_transaction = false → s.children.length = 1 →
      (∀ c ∈ s.children, c.duration ≥ s.duration * (9 / 10)) →
      collectInteresting s = collectInterestingList s.children) ∧
    (s.is_transaction = true →
      collectInteresting s = stripChildren s :: collectInterestingList s.children) := by
  cases s with
  | mk op de tx du st en it er pr ch =>
    constructor
    · intro hit hlen hdom
      simp only [TraceSpan.is_transaction] at hit
      subst hit
      simp only [TraceSpan.children] at hlen hdom ⊢
      cases ch with
      | nil => simp at hlen
      | cons c ch' =>
        cases ch' with
        | cons c₂ ch'' => simp at hlen
        | nil =>
          have hc : c.duration ≥ du * (9 / 10) := by
            have h := hdom c (List.mem_singleton.2 rfl)
            simpa [TraceSpan.duration] using h
          have hdomB :
              dominatedByOneChild (.mk op de tx du st en false er pr [c]) = true := by
            simp only [dominatedByOneChild, TraceSpan.children, TraceSpan.duration,
              decide_eq_true_eq]
            exact hc
          rw [collectInteresting]
          simp [hdomB]
    · intro hit
      simp only [TraceSpan.is_transaction] at hit
      subst hit
      simp only [TraceSpan.children]
      rw [collectInteresting]
      simp [isInteresting, TraceSpan.is_transaction]

/-- A dominated non-transaction span: duration 100 ms (above the 10 ms
minimum), an attached error, and a single child of duration 90. -/
def sampleChild : TraceSpan := .mk (some "db") none none 90 0 0 false [] "proj" []

def sampleDominated : TraceSpan :=
  .mk (some "mw") none none 100 0 0 false [()] "proj" [sampleChild]

def sampleTx : TraceSpan := .mk (some "http") none none 5 0 0 true [] "proj" []

theorem c2_dominated_suppression_witness :
    collectInteresting sampleDominated =
      collectInterestingList sampleDominated.children ∧
    collectInteresting sampleTx =
      stripChildren sampleTx :: collectInterestingList sampleTx.children := by
  constructor
  · apply (c2_dominated_suppression sampleDominated).1 rfl rfl
    intro c hc
    simp only [sampleDominated, TraceSpan.children, List.mem_singleton] at hc
    subst hc
    norm_num [sampleChild, sampleDominated, TraceSpan.duration]
  · exact (c2_dominated_suppression sampleTx).2 rfl

/-! ### The aggregator's total count -/

theorem sumCounts_bumpOp (key : String) (d : ℚ) (ops : OpsMap) :
    sumCounts (bumpOp key d ops) = sumCounts ops + 1 := by
  induction ops with
  | nil => simp [bumpOp, sumCounts]
  | cons e rest ih =>
    obtain ⟨k, c, t⟩ := e
    by_cases h : k = key
    · simp only [bumpOp, if_pos h, sumCounts]
      ring
    · simp only [bumpOp, if_neg h, sumCounts, ih]
      ring

theorem sumCounts_collectOperations :
    (∀ s : TraceSpan, ∀ ops, sumCounts (collectOperations s ops) =
      sumCounts ops + (countOpNodes s : Int)) ∧
    (∀ l : List TraceSpan, ∀ ops, sumCounts (collectOperationsList l ops) =
      sumCounts ops + (countOpNodesList l : Int)) := by
  apply spanInd
    (fun s => ∀ ops, sumCounts (collectOperations s ops) =
      sumCounts ops + (countOpNodes s : Int))
    (fun l => ∀ ops, sumCounts (collectOperationsList l ops) =
      sumCounts ops + (countOpNodesList l : Int))
  · intro op de tx du st en it er pr ch hch ops
    cases op with
    | some o =>
      rw [collectOperations, countOpNodes, hch, sumCounts_bumpOp]
      simp only [Option.isSome_some, if_pos]
      push_cast; ring
    | none =>
      rw [collectOperations, countOpNodes, hch]
      simp only [Option.isSome_none, Bool.false_eq_true, if_false]
      push_cast; ring
  · intro ops
    rw [collectOperationsList, countOpNodesList]
    push_cast; ring
  · intro s rest hs hrest ops
    rw [collectOperationsList, countOpNodesList, hrest, hs]
    push_cast; ring

/-- **C5.** The occurrence counts of `collect_operations` over an empty map
sum to the number of nodes of the tree whose operation field is present
(read of the claim's "non-empty operation name": a non-empty `Option`, the
only thing the source tests); a node with no operation name updates no
bucket, but its children are still aggregated. -/
theorem c5_collect_operations (s : TraceSpan) :
    sumCounts (collectOperations s []) = (countOpNodes s : Int) ∧
    (∀ ops, s.op = none → collectOperations s ops =
      collectOperationsList s.children ops) := by
  constructor
  · rw [sumCounts_collectOperations.1 s []]
    simp [sumCounts]
  · intro ops hop
    cases s with
    | mk op de tx du st en it er pr ch =>
      simp only [TraceSpan.op] at hop
      subst hop
      rw [collectOperations]
      rfl

def sampleNoOp : TraceSpan := .mk none none none 3 0 0 false [] "proj" [sampleChild]

theorem c5_collect_operations_witness :
    sumCounts (collectOperations sampleNoOp []) = (countOpNodes sampleNoOp : Int) ∧
    collectOperations sampleNoOp [] =
      collectOperationsList sampleNoOp.children [] :=
  ⟨(c5_collect_operations sampleNoOp).1,
   (c5_collect_operations sampleNoOp).2 [] rfl⟩

/-! ### The wall-clock time range -/

theorem rangeMin_assoc (a b c : Option ℚ) :
    rangeMin (rangeMin a b) c = rangeMin a (rangeMin b c) := by
  cases a <;> cases b <;> cases c <;> simp [rangeMin, min_assoc]

theorem rangeMax_assoc (a b c : Option ℚ) :
    rangeMax (rangeMax a b) c = rangeMax a (rangeMax b c) := by
  cases a <;> cases b <;> cases c <;> simp [rangeMax, max_assoc]

theorem minQ_append (l₁ l₂ : List ℚ) :
    minQ (l₁ ++ l₂) = rangeMin (minQ l₁) (minQ l₂) := by
  induction l₁ with
  | nil => simp [minQ, rangeMin]
  | cons v rest ih =>
    simp only [List.cons_append, minQ, List.append_eq, ih, rangeMin_assoc]

theorem maxQ_append (l₁ l₂ : List ℚ) :
    maxQ (l₁ ++ l₂) = rangeMax (maxQ l₁) (maxQ l₂) := by
  induction l₁ with
  | nil => simp [maxQ, rangeMax]
  | cons v rest ih =>
    simp only [List.cons_append, maxQ, List.append_eq, ih, rangeMax_assoc]

/-- `compute_time_range` equals the minimum of the positive start timestamps
paired with the maximum of the positive end timestamps, over every node of
every root's subtree. -/
theorem computeTimeRange_eq :
    (∀ s : TraceSpan,
      spanTimeRange s = (minQ (validStartsOf s), maxQ (validEndsOf s))) ∧
    (∀ l : List TraceSpan,
      computeTimeRange l = (minQ (validStarts l), maxQ (validEnds l))) := by
  apply spanInd
    (fun s => spanTimeRange s = (minQ (validStartsOf s), maxQ (validEndsOf s)))
    (fun l => computeTimeRange l = (minQ (validStarts l), maxQ (validEnds l)))
  · intro op de tx du st en it er pr ch hch
    rw [spanTimeRange, validStartsOf, validEndsOf, hch]
    rw [minQ_append, maxQ_append]
    by_cases hst : st > 0 <;> by_cases hen : en > 0 <;>
      simp [hst, hen, minQ, maxQ, rangeMin, rangeMax]
  · rfl
  · intro s rest hs hrest
    rw [computeTimeRange, validStarts, validEnds, hs, hrest,
      minQ_append, maxQ_append]

def badSpan : TraceSpan := .mk none none none 5 (-1) 2 false [] "proj" []

/-- **C3, counterexample.** The claim excludes only timestamps *equal to*
0.0 from the min/max scan; the source excludes all non-positive ones.  For a
single root with `start_timestamp = -1` and `end_timestamp = 2` the claim
demands a `(2 − (−1)) × 1000` total, but the report falls back to the root's
own duration. -/
theorem c3_counterexample : ¬ c3ClaimAt [badSpan] := by
  intro h
  have h3 := h (by simp) (-1) 2 (by decide) (by decide) (by norm_num)
  exact absurd h3 (by decide)

/-- **C3, amended.** With at least one root: whenever the positive
timestamps (non-positive values excluded, not only exactly-0.0 sentinels)
give a positive range, the report shows `(max end − min start) × 1000` as
the wall-clock total; otherwise, with a single root, it shows that root's
own duration under the distinct `Root Duration` label. -/
theorem c3_wall_clock (spans : List TraceSpan) (h : spans ≠ []) :
    (∀ a b, minQ (validStarts spans) = some a →
      maxQ (validEnds spans) = some b → (b - a) * 1000 > 0 →
      durationSection spans =
        "**Total Duration:** " ++ formatDuration ((b - a) * 1000) ++ "\n") ∧
    (∀ root, spans = [root] →
      (¬ ∃ a b, minQ (validStarts spans) = some a ∧
        maxQ (validEnds spans) = some b ∧ (b - a) * 1000 > 0) →
      durationSection spans =
        "**Root Duration:** " ++ formatDuration root.duration ++ "\n") := by
  constructor
  · intro a b hmin hmax hpos
    cases spans with
    | nil => exact absurd rfl h
    | cons root rest =>
      rw [durationSection, computeTimeRange_eq.2, hmin, hmax]
      simp only [if_pos hpos]
  · intro root hspans hne
    subst hspans
    rw [durationSection, computeTimeRange_eq.2]
    cases hmin : minQ (validStarts [root]) with
    | none =>
      cases hmax : maxQ (validEnds [root]) <;> rfl
    | some a =>
      cases hmax : maxQ (validEnds [root]) with
      | none => rfl
      | some b =>
        have hpos : ¬ (b - a) * 1000 > 0 := fun hp => hne ⟨a, b, hmin, hmax, hp⟩
        simp only [if_neg hpos]

def spanA : TraceSpan := .mk none none none 100 1000 1001 true [] "proj" []
def spanB : TraceSpan := .mk none none none 50 999 1002 false [] "proj" []
def rootOnly : TraceSpan := .mk none none none 7 0 0 false [] "proj" []

theorem c3_wall_clock_witness :
    durationSection [spanA, spanB] =
      "**Total Duration:** " ++ formatDuration ((1002 - 999) * 1000) ++ "\n" ∧
    durationSection [rootOnly] =
      "**Root Duration:** " ++ formatDuration rootOnly.duration ++ "\n" := by
  constructor
  · exact (c3_wall_clock [spanA, spanB] (by simp)).1 999 1002
      (by decide) (by decide) (by norm_num)
  · apply (c3_wall_clock [rootOnly] (by simp)).2 rootOnly rfl
    rintro ⟨a, b, ha, -, -⟩
    rw [show minQ (validStarts [rootOnly]) = none from rfl] at ha
    exact Option.noConfusion ha

/-- **C4.** With server metadata present and a non-empty operation map, the
breakdown section is rendered from that map sorted by total descending and
the local aggregate plays no part; with metadata absent, or present with an
empty map, the local aggregate is used, also sorted by total duration
descending; and for `{"db" ↦ 200, "http" ↦ 100}` the section lists `db`
before `http`. -/
theorem c4_breakdown (spans : List TraceSpan) (m : TraceMeta) :
    (m.span_count_map ≠ [] →
      breakdownSection spans (some m) =
        "\n## Operation Breakdown\n\n"
          ++ renderMetaPairs (sortDesc Prod.snd m.span_count_map) ∧
      (sortDesc Prod.snd m.span_count_map).Pairwise
        (fun a b => b.2 ≤ a.2)) ∧
    breakdownSection spans none = localBreakdown spans ∧
    (m.span_count_map = [] →
      breakdownSection spans (some m) = localBreakdown spans) ∧
    (sortDesc (fun e => e.2.2) (collectOperationsList spans [])).Pairwise
      (fun a b => b.2.2 ≤ a.2.2) ∧
    breakdownSection spans
        (some ⟨0, 0, 0, 0, [("db", 200), ("http", 100)]⟩) =
      "\n## Operation Breakdown\n\n" ++ "- **db**: 200\n- **http**: 100\n" := by
  refine ⟨?_, rfl, ?_, pairwise_sortDesc _ _, ?_⟩
  · intro hne
    constructor
    · have hempty : m.span_count_map.isEmpty = false := by
        cases hmap : m.span_count_map with
        | nil => exact absurd hmap hne
        | cons e rest => rfl
      rw [breakdownSection, hempty]
      rfl
    · exact pairwise_sortDesc _ _
  · intro hmap
    rw [breakdownSection, hmap]
    rfl
  · rfl

def metaSample : TraceMeta := ⟨0, 0, 0, 0, [("http", 100), ("db", 200)]⟩

theorem c4_breakdown_witness :
    breakdownSection [] (some metaSample) =
      "\n## Operation Breakdown\n\n"
        ++ renderMetaPairs (sortDesc Prod.snd metaSample.span_count_map) ∧
    (sortDesc Prod.snd metaSample.span_count_map).Pairwise
      (fun a b => b.2 ≤ a.2) ∧
    breakdownSection [] (some metaSample) =
      "\n## Operation Breakdown\n\n" ++ "- **db**: 200\n- **http**: 100\n" := by
  have h := (c4_breakdown [] metaSample).1 (by simp [metaSample])
  exact ⟨h.1, h.2, by decide⟩

/-- **C6.** The current report composer renders no orphan-error section at
all: the trace report built by `format_trace_output` (here evaluated at the
failing input — a trace with no transactions, whose response-level
orphan-error list the composer is never given) contains no "Orphan Errors"
block, although the in-repo tests
(`tests/get_trace_details_tests.rs`, `test_format_trace_output_with_orphan_errors`)
assert a numbered, 5-capped list. -/
theorem c6_no_orphan_section :
    containsSub (formatTraceOutput "trace-123" [] none) "Orphan Errors" = false := by
  decide

/-! ### Duration formatting -/

theorem pad2_length : ∀ f : Nat, f < 100 → (pad2 f).length = 2 := by
  decide

/-- **C7.** For non-negative inputs, `format_duration` renders values
≥ 1000 as the rounded two-decimal seconds value with an `"s"` suffix and
values < 1000 as the rounded two-decimal milliseconds value with an `"ms"`
suffix — in both cases with exactly two digits after the decimal point —
and in particular `format_duration(999.99) = "999.99ms"` and
`format_duration(1000.0) = "1.00s"`. -/
theorem c7_format_duration (ms : ℚ) (h : 0 ≤ ms) :
    (1000 ≤ ms →
      formatDuration ms =
        toString (round (ms / 1000 * 100) / 100) ++ "."
          ++ pad2 (round (ms / 1000 * 100) % 100).toNat ++ "s" ∧
      (pad2 (round (ms / 1000 * 100) % 100).toNat).length = 2) ∧
    (ms < 1000 →
      formatDuration ms =
        toString (round (ms * 100) / 100) ++ "."
          ++ pad2 (round (ms * 100) % 100).toNat ++ "ms" ∧
      (pad2 (round (ms * 100) % 100).toNat).length = 2) ∧
    formatDuration (99999 / 100) = "999.99ms" ∧
    formatDuration 1000 = "1.00s" := by
  have hmod : ∀ n : Int, (n % 100).toNat < 100 := by
    intro n
    have h1 : n % 100 < 100 := Int.emod_lt_of_pos _ (by norm_num)
    have h2 : 0 ≤ n % 100 := Int.emod_nonneg _ (by norm_num)
    omega
  refine ⟨fun h1 => ⟨?_, pad2_length _ (hmod _)⟩,
    fun h2 => ⟨?_, pad2_length _ (hmod _)⟩, ?_, ?_⟩
  · rw [formatDuration, if_pos (by exact_mod_cast h1)]
    rfl
  · rw [formatDuration, if_neg (by exact_mod_cast not_le_of_lt h2)]
    rfl
  · rw [formatDuration, if_neg (by norm_num), fmt2,
      show round ((99999 : ℚ) / 100 * 100) = 99999 by norm_num [round_eq]]
    rfl
  · rw [formatDuration, if_pos (by norm_num), fmt2,
      show round ((1000 : ℚ) / 1000 * 100) = 100 by norm_num [round_eq]]
    rfl

theorem c7_format_duration_witness :
    (0 : ℚ) ≤ 1000 ∧ formatDuration 1000 = "1.00s" ∧
    formatDuration (99999 / 100) = "999.99ms" := by
  have h := c7_format_duration 1000 (by norm_num)
  exact ⟨by norm_num, h.2.2.2, h.2.2.1⟩

/-- **C8.** When the trace fetch succeeds and the best-effort metadata
fetch fails, `execute` still returns a successful report, formatted with the
metadata absent; the metadata failure never surfaces as an error. -/
theorem c8_meta_failure_degrades (spans : List TraceSpan) (e traceId : String) :
    executeTrace (.ok spans) (.error e) traceId =
      .ok (formatTraceOutput traceId spans none) := rfl

/-! ### Local-variable truncation -/

theorem string_length_take (s : String) (n : Nat) :
    (s.take n).length = min n s.length := by
  show (s.take n).data.length = _
  rw [String.data_take, List.length_take]
  rfl

/-- A 56-character string; quoted it renders as 58 characters. -/
def varStr56 : String := "aaaaaaaaaaaaaaaaaaaaaaaaaaaaaaaaaaaaaaaaaaaaaaaaaaaaaaaa"

set_option maxRecDepth 4096 in
/-- **C9, counterexample.** The claim truncates every rendered value longer
than 57 characters; the source truncates only those longer than 60.  A
58-character rendered value (a 56-character string plus its quotes) is
printed in full. -/
theorem c9_counterexample : ¬ c9ClaimAt (JVal.str varStr56) := by
  intro h
  have h58 := h (by decide)
  exact absurd h58 (by decide)

/-- **C9, amended.** A rendered local-variable value of more than 60
characters is truncated to its first 57 characters plus an ellipsis (to 60
characters total); a value of at most 60 characters is rendered in full; and
a null value renders as the literal placeholder `None`. -/
theorem c9_var_truncation (v : JVal) :
    ((renderValStr v).length ≤ 60 → renderVarValue v = renderValStr v) ∧
    (60 < (renderValStr v).length →
      renderVarValue v = (renderValStr v).take 57 ++ "..." ∧
      (renderVarValue v).length = 60) ∧
    renderVarValue JVal.null = "None" := by
  refine ⟨?_, ?_, rfl⟩
  · intro h
    rw [renderVarValue, if_neg (by omega)]
  · intro h
    have heq : renderVarValue v = (renderValStr v).take 57 ++ "..." := by
      rw [renderVarValue, if_pos (by omega)]
    refine ⟨heq, ?_⟩
    rw [heq, String.length_append, string_length_take]
    have hmin : min 57 (renderValStr v).length = 57 := by omega
    rw [hmin]
    rfl

/-- A 61-character string; quoted it renders as 63 characters. -/
def varStr61 : String := "bbbbbbbbbbbbbbbbbbbbbbbbbbbbbbbbbbbbbbbbbbbbbbbbbbbbbbbbbbbbb"

set_option maxRecDepth 4096 in
theorem c9_var_truncation_witness :
    renderVarValue (JVal.str varStr56) = renderValStr (JVal.str varStr56) ∧
    renderVarValue (JVal.str varStr61) =
      (renderValStr (JVal.str varStr61)).take 57 ++ "..." ∧
    (renderVarValue (JVal.str varStr61)).length = 60 ∧
    renderVarValue JVal.null = "None" := by
  refine ⟨(c9_var_truncation (JVal.str varStr56)).1 (by decide), ?_, ?_,
    (c9_var_truncation JVal.null).2.2⟩
  · exact ((c9_var_truncation (JVal.str varStr61)).2.1 (by decide)).1
  · exact ((c9_var_truncation (JVal.str varStr61)).2.1 (by decide)).2

/-! ### The selector's sort never panics on NaN-free input -/

theorem duration_stripChildrenN (s : NSpan) :
    (stripChildrenN s).duration = s.duration := by
  cases s; rfl

theorem collectN_isSome :
    (∀ s : NSpan, nanFree s = true →
      ∀ x ∈ collectInterestingN s, x.duration.isSome = true) ∧
    (∀ l : List NSpan, nanFreeList l = true →
      ∀ x ∈ collectInterestingListN l, x.duration.isSome = true) := by
  apply nspanInd
    (fun s => nanFree s = true →
      ∀ x ∈ collectInterestingN s, x.duration.isSome = true)
    (fun l => nanFreeList l = true →
      ∀ x ∈ collectInterestingListN l, x.duration.isSome = true)
  · intro du it er ch hch hfree x hx
    rw [nanFree, Bool.and_eq_true] at hfree
    rw [collectInterestingN] at hx
    rcases List.mem_append.1 hx with hx | hx
    · split at hx
      · rcases List.mem_singleton.1 hx with rfl
        rw [duration_stripChildrenN]
        exact hfree.1
      · exact absurd hx (List.not_mem_nil x)
    · exact hch hfree.2 x hx
  · intro _ x hx
    exact absurd hx (List.not_mem_nil x)
  · intro s rest hs hrest hfree x hx
    rw [nanFreeList, Bool.and_eq_true] at hfree
    rw [collectInterestingListN] at hx
    rcases List.mem_append.1 hx with hx | hx
    · exact hs hfree.1 x hx
    · exact hrest hfree.2 x hx

theorem insDescM_ok (x : NSpan) (l : List NSpan)
    (hx : x.duration.isSome = true)
    (hl : ∀ y ∈ l, y.duration.isSome = true) :
    ∃ r, insDescM x l = .ok r ∧ ∀ z ∈ r, z.duration.isSome = true := by
  induction l with
  | nil =>
    refine ⟨[x], rfl, ?_⟩
    intro z hz
    rcases List.mem_singleton.1 hz with rfl
    exact hx
  | cons y ys ih =>
    obtain ⟨a, ha⟩ := Option.isSome_iff_exists.1 hx
    obtain ⟨b, hb⟩ := Option.isSome_iff_exists.1 (hl y (List.mem_cons_self y ys))
    obtain ⟨r', hr', hmem⟩ := ih (fun z hz => hl z (List.mem_cons_of_mem y hz))
    cases hcmp : compare b a with
    | lt =>
      refine ⟨x :: y :: ys, ?_, ?_⟩
      · simp [insDescM, cmpDurations, ha, hb, hcmp]
        rfl
      · intro z hz
        rcases List.mem_cons.1 hz with rfl | hz
        · exact hx
        · exact hl z hz
    | eq =>
      refine ⟨y :: r', ?_, ?_⟩
      · simp [insDescM, cmpDurations, ha, hb, hcmp, hr']
        rfl
      · intro z hz
        rcases List.mem_cons.1 hz with rfl | hz
        · exact hl _ (List.mem_cons_self _ _)
        · exact hmem z hz
    | gt =>
      refine ⟨y :: r', ?_, ?_⟩
      · simp [insDescM, cmpDurations, ha, hb, hcmp, hr']
        rfl
      · intro z hz
        rcases List.mem_cons.1 hz with rfl | hz
        · exact hl _ (List.mem_cons_self _ _)
        · exact hmem z hz

theorem sortDescM_ok (l : List NSpan)
    (hl : ∀ y ∈ l, y.duration.isSome = true) :
    ∃ r, sortDescM l = .ok r ∧ ∀ z ∈ r, z.duration.isSome = true := by
  induction l with
  | nil => exact ⟨[], rfl, fun z hz => absurd hz (List.not_mem_nil z)⟩
  | cons x xs ih =>
    obtain ⟨r', hr', hmem⟩ := ih (fun z hz => hl z (List.mem_cons_of_mem x hz))
    obtain ⟨r, hr, hmemr⟩ :=
      insDescM_ok x r' (hl x (List.mem_cons_self x xs)) hmem
    refine ⟨r, ?_, hmemr⟩
    rw [sortDescM, hr']
    exact hr

/-- **C10.** On input whose durations are all non-NaN (recursively through
all children), `select_interesting_spans` is total: the `unwrap` on the
duration comparison inside its sort can never be reached, so the selection
returns a value instead of panicking. -/
theorem c10_select_no_panic (spans : List NSpan) (N : Nat)
    (h : nanFreeList spans = true) :
    ∃ r, selectInterestingSpansN spans N = .ok r := by
  obtain ⟨r, hr, -⟩ :=
    sortDescM_ok (collectInterestingListN spans) (collectN_isSome.2 spans h)
  exact ⟨r.take N, by simp [selectInterestingSpansN, hr]⟩

def sampleN : NSpan := .mk (some 100) true [] [.mk (some 95) false [] []]

theorem c10_select_no_panic_witness :
    nanFreeList [sampleN] = true ∧
    ∃ r, selectInterestingSpansN [sampleN] 20 = .ok r :=
  ⟨rfl, c10_select_no_panic [sampleN] 20 rfl⟩
